import Mathlib

/-!
Verification of the PR-statistics pipeline: a shallow embedding of
`lib/github_client.py`, `lib/statistics.py` and `lib/analyzer.py`
(the same logic is duplicated in `pr_stats.py`), together with proofs of
the spec's testable properties.

Numeric modelling: Python ints are `Nat` (the spec fixes `additions`,
`deletions`, counts as non-negative integers); Python floats produced by
`total_lines / total_prs` and `round(_, 1)` are modelled as `ℚ` with an
explicit round-half-to-even (Python's rounding mode) to one decimal.
Network I/O is modelled by passing the remote responses as explicit
arguments; exceptions are modelled with `Except`.
-/

namespace PRStats

/-- Python's `round` at 1 decimal uses round-half-to-even on the scaled
value; the integer rounding of a rational, ties to even. -/
def pyRoundInt (q : ℚ) : ℤ :=
  let f : ℤ := ⌊q⌋
  if q - f < 1/2 then f
  else if 1/2 < q - f then f + 1
  else if f % 2 = 0 then f else f + 1

/-- Models Python's `round(q, 1)`: round to one decimal place. -/
def pyRound1 (q : ℚ) : ℚ := (pyRoundInt (10 * q) : ℚ) / 10

/-- The dataclass `PRData` of `lib/github_client.py`. -/
structure PRData where
  number : Nat
  title : String
  author : String
  merged_at : String
  additions : Nat
  deletions : Nat
  total_lines : Nat
  url : String
deriving DecidableEq, Repr

/-- The dataclass `UserStats` of `lib/statistics.py`. -/
structure UserStats where
  user : String
  total_prs : Nat
  avg_lines_per_pr : ℚ
  total_lines : Nat
deriving DecidableEq, Repr

/-- One step of `user_prs[pr.author].append(pr)` on an insertion-ordered
mapping (Python dicts preserve key insertion order): append `pr` to its
author's group, creating the group at the end if the author is new. -/
def insertGroup : List (String × List PRData) → PRData → List (String × List PRData)
  | [], pr => [(pr.author, [pr])]
  | (u, g) :: rest, pr =>
      if u = pr.author then (u, g ++ [pr]) :: rest
      else (u, g) :: insertGroup rest pr

/-- The grouping loop of `calculate_statistics`: a `defaultdict(list)`
filled in input order, modelled as an association list in
first-appearance-of-author order. -/
def groupByAuthor (pr_data_list : List PRData) : List (String × List PRData) :=
  pr_data_list.foldl insertGroup []

/-- The body of the per-group loop in `calculate_statistics`. -/
def mkStat (user : String) (prs : List PRData) : UserStats :=
  let total_prs := prs.length
  let total_lines := (prs.map PRData.total_lines).sum
  let avg_lines : ℚ := if 0 < total_prs then (total_lines : ℚ) / (total_prs : ℚ) else 0
  { user := user
    total_prs := total_prs
    avg_lines_per_pr := pyRound1 avg_lines
    total_lines := total_lines }

/-- The comparison realised by `stats.sort(key=lambda x: x.total_prs,
reverse=True)`: a stable sort ordered descending by `total_prs`. -/
def statsLE (a b : UserStats) : Bool := decide (b.total_prs ≤ a.total_prs)

/-- `calculate_statistics` of `lib/statistics.py`: group by author, build
one `UserStats` per group, then stable-sort descending by `total_prs`. -/
def calculate_statistics (pr_data_list : List PRData) : List UserStats :=
  (((groupByAuthor pr_data_list).map fun p => mkStat p.1 p.2).mergeSort statsLE)

/-- Variant of `mkStat` without the `if total_prs > 0` guard: divides
unconditionally.  Used to express that the `else 0` fallback of the
source is unreachable. -/
def mkStatUnguarded (user : String) (prs : List PRData) : UserStats :=
  let total_prs := prs.length
  let total_lines := (prs.map PRData.total_lines).sum
  { user := user
    total_prs := total_prs
    avg_lines_per_pr := pyRound1 ((total_lines : ℚ) / (total_prs : ℚ))
    total_lines := total_lines }

/-- `calculate_statistics` with the division-by-zero fallback removed. -/
def calculate_statisticsUnguarded (pr_data_list : List PRData) : List UserStats :=
  (((groupByAuthor pr_data_list).map fun p => mkStatUnguarded p.1 p.2).mergeSort statsLE)

/-- First-appearance order of a list's elements: the order in which the
distinct values first occur. -/
def firstAppearanceOrder (l : List String) : List String :=
  l.foldl (fun acc u => if u ∈ acc then acc else acc ++ [u]) []

/-! ### HTTP client wrapper (`GitHubClient._make_request`) -/

/-- The five raise sites of `_make_request`, each with its distinct
message, modelled as a sum of error kinds (`GitHubAPIError` carries a
distinct message per branch in the source). -/
inductive GitHubAPIError where
  /-- "Invalid GitHub token. Check your configuration." (HTTP 401). -/
  | authenticationError : GitHubAPIError
  /-- "GitHub API rate limit exceeded. Try again later." (HTTP 403 with a
  rate-limit body). -/
  | rateLimitError : GitHubAPIError
  /-- "GitHub API forbidden: {body}" (other HTTP 403). -/
  | forbiddenError (body : String) : GitHubAPIError
  /-- "GitHub API error ({status}): {body}" (any other non-200 status). -/
  | apiError (status : Nat) (body : String) : GitHubAPIError
  /-- "Network error: {cause}" (a `requests.RequestException`). -/
  | networkError (cause : String) : GitHubAPIError
deriving DecidableEq, Repr

/-- The outcome of `self.session.get`: either a transport-level
exception, or an HTTP response with a status code, a body text and its
decoded JSON value (of shape `β`). -/
inductive HttpOutcome (β : Type) where
  | requestException (cause : String) : HttpOutcome β
  | response (status : Nat) (text : String) (json : β) : HttpOutcome β

/-- Whether `needle` is a prefix of `hay` (on character lists). -/
def charsStartWith : List Char → List Char → Bool
  | _, [] => true
  | [], _ :: _ => false
  | c :: cs, d :: ds => c = d && charsStartWith cs ds

/-- Whether `needle` occurs as a contiguous run inside `hay`. -/
def charsContain (hay needle : List Char) : Bool :=
  match hay with
  | [] => needle.isEmpty
  | _ :: cs => charsStartWith hay needle || charsContain cs needle

/-- Models `'rate limit' in response.text.lower()`: the body lowered
character by character, then searched for the literal needle
"rate limit" (a case-insensitive substring match). -/
def containsRateLimit (text : String) : Bool :=
  charsContain (text.data.map Char.toLower) "rate limit".data

/-- `GitHubClient._make_request`: classify the HTTP outcome, returning
the decoded JSON body on a 200 and a classified error otherwise. -/
def make_request {β : Type} (r : HttpOutcome β) : Except GitHubAPIError β :=
  match r with
  | .requestException cause => .error (.networkError cause)
  | .response status text json =>
      if status = 401 then .error .authenticationError
      else if status = 403 then
        if containsRateLimit text then .error .rateLimitError
        else .error (.forbiddenError text)
      else if status ≠ 200 then .error (.apiError status text)
      else .ok json

/-! ### Pagination engine (`GitHubClient._get_all_pages`) -/

/-- The shapes of a decoded page body that `_get_all_pages`
distinguishes: a mapping containing an `items` key (necessarily truthy),
a bare list (falsy when empty), any other truthy value, or a falsy value
(`None`, empty mapping, ...). -/
inductive Body (α : Type) where
  | dictWithItems (items : List α) : Body α
  | listBody (items : List α) : Body α
  | otherTruthy : Body α
  | falsy : Body α

/-- The items a page body contributes to the accumulated results. -/
def contribution {α : Type} : Body α → List α
  | .dictWithItems items => items
  | .listBody items => items
  | .otherTruthy => []
  | .falsy => []

/-- Whether, after processing this body, the loop requests another page:
only a usable shape carrying at least 100 items does. -/
def continuesPaging {α : Type} : Body α → Bool
  | .dictWithItems items => decide (100 ≤ items.length)
  | .listBody items => decide (100 ≤ items.length)
  | .otherTruthy => false
  | .falsy => false

/-- The `while True` loop of `_get_all_pages`, with explicit fuel (the
source loop need not terminate on a source that always returns full
pages).  `source` maps a page number to the decoded body of the request
for that page.  Returns the accumulated items and the number of requests
issued. -/
def getAllPagesAux {α : Type} (source : Nat → Body α) :
    Nat → Nat → List α → Nat → List α × Nat
  | _, 0, acc, count => (acc, count)
  | page, fuel + 1, acc, count =>
      match source page with
      | .falsy => (acc, count + 1)
      | .dictWithItems items =>
          if items.length < 100 then (acc ++ items, count + 1)
          else getAllPagesAux source (page + 1) fuel (acc ++ items) (count + 1)
      | .listBody items =>
          if items.length = 0 then (acc, count + 1)
          else if items.length < 100 then (acc ++ items, count + 1)
          else getAllPagesAux source (page + 1) fuel (acc ++ items) (count + 1)
      | .otherTruthy => (acc, count + 1)

/-- `GitHubClient._get_all_pages`: start at page 1 with an empty
accumulator, zero requests issued. -/
def get_all_pages {α : Type} (fuel : Nat) (source : Nat → Body α) : List α × Nat :=
  getAllPagesAux source 1 fuel [] 0

/-! ### PR fetcher (`GitHubClient.fetch_merged_prs`) -/

/-- One item of the search results: the fields of the summary object that
`fetch_merged_prs` reads. -/
structure SearchItem where
  number : Nat
  title : String
  repository_url : String
  html_url : String

/-- The fields `fetch_merged_prs` reads from a per-PR detail response;
each may be absent from the mapping (`dict.get` with a default). -/
structure PRDetails where
  merged_at : Option String
  additions : Option Nat
  deletions : Option Nat

/-- `self.base_url`. -/
def base_url : String := "https://api.github.com"

/-- `pr['repository_url'].split('repos/')[-1]`. -/
def repoFullName (repository_url : String) : String :=
  (repository_url.splitOn "repos/").getLastD ""

/-- The detail-endpoint URL built for one search item. -/
def prDetailUrl (pr : SearchItem) : String :=
  base_url ++ "/repos/" ++ repoFullName pr.repository_url ++ "/pulls/" ++ toString pr.number

/-- The query construction of `fetch_merged_prs`: mandatory clauses then
the optional filters, joined by single spaces. -/
def buildQuery (user : String) (repository start_date end_date : Option String) : String :=
  let parts := ["author:" ++ user, "is:pr", "is:merged"]
  let parts := parts ++ (match repository with | some r => ["repo:" ++ r] | none => [])
  let parts := parts ++ (match start_date with | some d => ["merged:>=" ++ d] | none => [])
  let parts := parts ++ (match end_date with | some d => ["merged:<=" ++ d] | none => [])
  String.intercalate " " parts

/-- The record assembly of `fetch_merged_prs`: combine a search item with
its detail response; absent detail fields default (`merged_at` to `""`,
`additions`/`deletions` to `0`), and `total_lines` is recomputed as
`additions + deletions` from the defaulted detail fields. -/
def buildRecord (user : String) (pr : SearchItem) (details : PRDetails) : PRData :=
  { number := pr.number
    title := pr.title
    author := user
    merged_at := details.merged_at.getD ""
    additions := details.additions.getD 0
    deletions := details.deletions.getD 0
    total_lines := details.additions.getD 0 + details.deletions.getD 0
    url := pr.html_url }

/-- The per-item loop of `fetch_merged_prs`: for each search item issue
the detail request (`detail` maps a detail URL to its outcome) and append
the assembled record; any detail failure propagates. -/
def assembleRecords (user : String) (detail : String → Except GitHubAPIError PRDetails) :
    List SearchItem → Except GitHubAPIError (List PRData)
  | [] => .ok []
  | pr :: rest =>
      match detail (prDetailUrl pr) with
      | .error e => .error e
      | .ok d =>
          match assembleRecords user detail rest with
          | .error e => .error e
          | .ok restRecords => .ok (buildRecord user pr d :: restRecords)

/-! ### Analysis orchestrator (`PRAnalyzer.analyze`) -/

/-- The result dictionary of `PRAnalyzer.analyze`: `summary`, `prs`,
`total_prs`. -/
structure AnalysisResult where
  summary : List UserStats
  prs : List PRData
  total_prs : Nat
deriving DecidableEq, Repr

/-- The per-user fetch loop of `PRAnalyzer.analyze`: fetch each user in
order, concatenating the records; the first failure aborts the loop and
propagates. -/
def fetchAll (fetch : String → Except GitHubAPIError (List PRData)) :
    List String → Except GitHubAPIError (List PRData)
  | [] => .ok []
  | u :: rest =>
      match fetch u with
      | .error e => .error e
      | .ok d =>
          match fetchAll fetch rest with
          | .error e => .error e
          | .ok restD => .ok (d ++ restD)

/-- `PRAnalyzer.analyze`, parameterised by the aggregator it delegates to
(the source calls `calculate_statistics`) and by the per-user fetch
(the source calls `self.client.fetch_merged_prs`): if the concatenated
record list is empty, return the empty result without calling the
aggregator; otherwise aggregate and package. -/
def analyzeWith (agg : List PRData → List UserStats)
    (fetch : String → Except GitHubAPIError (List PRData))
    (users : List String) : Except GitHubAPIError AnalysisResult :=
  match fetchAll fetch users with
  | .error e => .error e
  | .ok all_pr_data =>
      if all_pr_data.isEmpty then
        .ok { summary := [], prs := [], total_prs := 0 }
      else
        .ok { summary := agg all_pr_data
              prs := all_pr_data
              total_prs := all_pr_data.length }

/-- `PRAnalyzer.analyze` as in the source, with `calculate_statistics` as
the aggregator. -/
def analyze (fetch : String → Except GitHubAPIError (List PRData))
    (users : List String) : Except GitHubAPIError AnalysisResult :=
  analyzeWith calculate_statistics fetch users

/-! ### Lemmas about the grouping -/

theorem insertGroup_keys (acc : List (String × List PRData)) (pr : PRData) :
    (insertGroup acc pr).map Prod.fst =
      if pr.author ∈ acc.map Prod.fst then acc.map Prod.fst
      else acc.map Prod.fst ++ [pr.author] := by
  induction acc with
  | nil => simp [insertGroup]
  | cons hd rest ih =>
      obtain ⟨u, g⟩ := hd
      by_cases hu : u = pr.author
      · simp [insertGroup, hu]
      · have hau : pr.author ≠ u := fun h => hu h.symm
        simp only [insertGroup, if_neg hu, List.map_cons, ih, List.mem_cons]
        by_cases hm : pr.author ∈ rest.map Prod.fst
        · simp [hm]
        · simp [hm, hau]

theorem insertGroup_flatten_perm (acc : List (String × List PRData)) (pr : PRData) :
    ((insertGroup acc pr).map Prod.snd).flatten.Perm
      ((acc.map Prod.snd).flatten ++ [pr]) := by
  induction acc with
  | nil => simp [insertGroup]
  | cons hd rest ih =>
      obtain ⟨u, g⟩ := hd
      by_cases hu : u = pr.author
      · simp only [insertGroup, if_pos hu, List.map_cons, List.flatten_cons]
        have h1 : (g ++ [pr]) ++ (rest.map Prod.snd).flatten
            = g ++ ([pr] ++ (rest.map Prod.snd).flatten) := by simp
        have h2 : (g ++ (rest.map Prod.snd).flatten) ++ [pr]
            = g ++ ((rest.map Prod.snd).flatten ++ [pr]) := by simp
        rw [h1, h2]
        exact List.Perm.append_left g List.perm_append_comm
      · simp only [insertGroup, if_neg hu, List.map_cons, List.flatten_cons]
        have h2 : (g ++ (rest.map Prod.snd).flatten) ++ [pr]
            = g ++ ((rest.map Prod.snd).flatten ++ [pr]) := by simp
        rw [h2]
        exact List.Perm.append_left g ih

theorem foldl_insertGroup_flatten_perm (prs : List PRData) :
    ∀ acc : List (String × List PRData),
      (((prs.foldl insertGroup acc)).map Prod.snd).flatten.Perm
        ((acc.map Prod.snd).flatten ++ prs) := by
  induction prs with
  | nil => intro acc; simp
  | cons pr rest ih =>
      intro acc
      simp only [List.foldl_cons]
      have h1 := ih (insertGroup acc pr)
      have h2 := (insertGroup_flatten_perm acc pr).append_right rest
      have h3 : ((acc.map Prod.snd).flatten ++ [pr]) ++ rest
          = (acc.map Prod.snd).flatten ++ (pr :: rest) := by simp
      exact (h1.trans h2).trans (List.Perm.of_eq h3)

/-- The groups formed by `groupByAuthor` partition the input: their
concatenation is a permutation of the input list. -/
theorem groupByAuthor_flatten_perm (prs : List PRData) :
    (((groupByAuthor prs)).map Prod.snd).flatten.Perm prs := by
  simpa [groupByAuthor] using foldl_insertGroup_flatten_perm prs []

theorem insertGroup_groups_ne_nil {acc : List (String × List PRData)} {pr : PRData}
    (h : ∀ g ∈ acc, g.2 ≠ []) : ∀ g ∈ insertGroup acc pr, g.2 ≠ [] := by
  induction acc with
  | nil => simp [insertGroup]
  | cons hd rest ih =>
      obtain ⟨u, gr⟩ := hd
      by_cases hu : u = pr.author
      · simp only [insertGroup, if_pos hu]
        intro g hg
        rcases List.mem_cons.mp hg with h1 | h2
        · subst h1; simp
        · exact h g (List.mem_cons_of_mem _ h2)
      · simp only [insertGroup, if_neg hu]
        intro g hg
        rcases List.mem_cons.mp hg with h1 | h2
        · subst h1; exact h (u, gr) (List.mem_cons_self _ _)
        · exact ih (fun g' hg' => h g' (List.mem_cons_of_mem _ hg')) g h2

/-- Every author group produced by the grouping loop is non-empty. -/
theorem groupByAuthor_groups_ne_nil (prs : List PRData) :
    ∀ g ∈ groupByAuthor prs, g.2 ≠ [] := by
  suffices h : ∀ acc : List (String × List PRData), (∀ g ∈ acc, g.2 ≠ []) →
      ∀ g ∈ prs.foldl insertGroup acc, g.2 ≠ [] by
    exact h [] (by simp)
  induction prs with
  | nil => intro acc hacc; simpa using hacc
  | cons pr rest ih =>
      intro acc hacc
      simp only [List.foldl_cons]
      exact ih _ (insertGroup_groups_ne_nil hacc)

theorem insertGroup_keys_nodup {acc : List (String × List PRData)} {pr : PRData}
    (h : (acc.map Prod.fst).Nodup) : ((insertGroup acc pr).map Prod.fst).Nodup := by
  rw [insertGroup_keys]
  by_cases hm : pr.author ∈ acc.map Prod.fst
  · simpa [hm] using h
  · simp only [if_neg hm]
    exact (List.nodup_append).mpr ⟨h, List.nodup_singleton _, by simpa using hm⟩

/-- The authors (keys) of the grouping are pairwise distinct. -/
theorem groupByAuthor_keys_nodup (prs : List PRData) :
    ((groupByAuthor prs).map Prod.fst).Nodup := by
  suffices h : ∀ acc : List (String × List PRData), (acc.map Prod.fst).Nodup →
      ((prs.foldl insertGroup acc).map Prod.fst).Nodup by
    exact h [] (by simp)
  induction prs with
  | nil => intro acc hacc; simpa using hacc
  | cons pr rest ih =>
      intro acc hacc
      simp only [List.foldl_cons]
      exact ih _ (insertGroup_keys_nodup hacc)

/-- The keys of the grouping, in order, are exactly the authors in order
of first appearance in the input. -/
theorem groupByAuthor_keys_eq (prs : List PRData) :
    (groupByAuthor prs).map Prod.fst = firstAppearanceOrder (prs.map PRData.author) := by
  suffices h : ∀ acc : List (String × List PRData),
      (prs.foldl insertGroup acc).map Prod.fst =
        (prs.map PRData.author).foldl
          (fun acc u => if u ∈ acc then acc else acc ++ [u]) (acc.map Prod.fst) by
    simpa [groupByAuthor, firstAppearanceOrder] using h []
  induction prs with
  | nil => intro acc; simp
  | cons pr rest ih =>
      intro acc
      simp only [List.foldl_cons, List.map_cons]
      rw [ih (insertGroup acc pr), insertGroup_keys]

theorem sum_map_flatten (f : PRData → Nat) (l : List (List PRData)) :
    (l.flatten.map f).sum = (l.map fun g => (g.map f).sum).sum := by
  induction l with
  | nil => simp
  | cons g rest ih =>
      simp only [List.flatten_cons, List.map_append, List.sum_append,
        List.map_cons, List.sum_cons, ih]

theorem length_flatten_eq (l : List (List PRData)) :
    l.flatten.length = (l.map fun g => g.length).sum := by
  induction l with
  | nil => simp
  | cons g rest ih => simp [ih]

/-- A sample input record used to instantiate hypotheses at a concrete
input. -/
def samplePR : PRData :=
  { number := 1, title := "t", author := "alice", merged_at := "2024-01-01T00:00:00Z"
    additions := 10, deletions := 5, total_lines := 15, url := "u" }

/-! ### Claim theorems: statistics -/

/-- C9: every author group formed from the input is non-empty, so
`total_prs` is at least 1 for every produced statistic, and the
`else 0` fallback of the average computation is unreachable:
`calculate_statistics` agrees with a variant that divides
unconditionally. -/
theorem calculate_statistics_no_div_by_zero (prs : List PRData) :
    (∀ g ∈ groupByAuthor prs, g.2 ≠ []) ∧
    (∀ s ∈ calculate_statistics prs, 1 ≤ s.total_prs) ∧
    calculate_statistics prs = calculate_statisticsUnguarded prs := by
  refine ⟨groupByAuthor_groups_ne_nil prs, ?_, ?_⟩
  · intro s hs
    rw [calculate_statistics, List.mem_mergeSort, List.mem_map] at hs
    obtain ⟨⟨u, g⟩, hg, rfl⟩ := hs
    have hne := groupByAuthor_groups_ne_nil prs _ hg
    have hpos : 0 < g.length := List.length_pos.mpr hne
    simpa [mkStat] using hpos
  · unfold calculate_statistics calculate_statisticsUnguarded
    congr 1
    apply List.map_congr_left
    intro p hp
    have hne := groupByAuthor_groups_ne_nil prs p hp
    have hpos : 0 < p.2.length := List.length_pos.mpr hne
    simp [mkStat, mkStatUnguarded, if_pos hpos]

/-- Witness for C9 at a concrete input. -/
theorem calculate_statistics_no_div_by_zero_witness :
    ∀ s ∈ calculate_statistics [samplePR], 1 ≤ s.total_prs :=
  (calculate_statistics_no_div_by_zero [samplePR]).2.1

/-- C7: every statistic's `avg_lines_per_pr` is its `total_lines`
divided by its `total_prs`, rounded to one decimal place. -/
theorem avg_lines_per_pr_eq_round (prs : List PRData) (s : UserStats)
    (hs : s ∈ calculate_statistics prs) :
    s.avg_lines_per_pr = pyRound1 ((s.total_lines : ℚ) / (s.total_prs : ℚ)) := by
  rw [calculate_statistics, List.mem_mergeSort, List.mem_map] at hs
  obtain ⟨⟨u, g⟩, hg, rfl⟩ := hs
  have hne := groupByAuthor_groups_ne_nil prs _ hg
  have hpos : 0 < g.length := List.length_pos.mpr hne
  simp [mkStat, if_pos hpos]

/-- Witness for C7 at a concrete input. -/
theorem avg_lines_per_pr_eq_round_witness :
    (mkStat "alice" [samplePR]).avg_lines_per_pr =
      pyRound1 (((mkStat "alice" [samplePR]).total_lines : ℚ) /
        ((mkStat "alice" [samplePR]).total_prs : ℚ)) :=
  avg_lines_per_pr_eq_round [samplePR] (mkStat "alice" [samplePR])
    (by simp [calculate_statistics, groupByAuthor, insertGroup, List.mem_mergeSort, samplePR])

/-- C1: for every non-empty record list, the summary's `total_lines`
values sum to the records' `total_lines` sum, and its `total_prs`
values sum to the number of records. -/
theorem aggregation_correctness (prs : List PRData) (hne : prs ≠ []) :
    ((calculate_statistics prs).map UserStats.total_lines).sum
        = (prs.map PRData.total_lines).sum ∧
    ((calculate_statistics prs).map UserStats.total_prs).sum = prs.length := by
  have hperm : (calculate_statistics prs).Perm
      ((groupByAuthor prs).map fun p => mkStat p.1 p.2) :=
    List.mergeSort_perm _ _
  have hflat := groupByAuthor_flatten_perm prs
  constructor
  · rw [(hperm.map UserStats.total_lines).sum_eq]
    have h2 : (((groupByAuthor prs).map fun p => mkStat p.1 p.2).map UserStats.total_lines)
        = ((groupByAuthor prs).map Prod.snd).map
            (fun g => (g.map PRData.total_lines).sum) := by
      simp only [List.map_map]
      rfl
    rw [h2, ← sum_map_flatten]
    exact ((hflat.map PRData.total_lines).sum_eq)
  · rw [(hperm.map UserStats.total_prs).sum_eq]
    have h2 : (((groupByAuthor prs).map fun p => mkStat p.1 p.2).map UserStats.total_prs)
        = ((groupByAuthor prs).map Prod.snd).map (fun g => g.length) := by
      simp only [List.map_map]
      rfl
    rw [h2, ← length_flatten_eq]
    exact hflat.length_eq

/-- Witness for C1 at a concrete input. -/
theorem aggregation_correctness_witness :
    ((calculate_statistics [samplePR]).map UserStats.total_lines).sum
        = ([samplePR].map PRData.total_lines).sum ∧
    ((calculate_statistics [samplePR]).map UserStats.total_prs).sum
        = [samplePR].length :=
  aggregation_correctness [samplePR] (by simp)

/-! ### Claim theorems: ordering of the summary -/

theorem pair_sublist_of_mem {α : Type} {l : List α} {a b : α}
    (ha : a ∈ l) (hb : b ∈ l) (hne : a ≠ b) :
    [a, b].Sublist l ∨ [b, a].Sublist l := by
  induction l with
  | nil => cases ha
  | cons x xs ih =>
      rcases List.mem_cons.mp ha with rfl | ha'
      · have hb' : b ∈ xs := by
          rcases List.mem_cons.mp hb with rfl | hb'
          · exact absurd rfl hne
          · exact hb'
        exact Or.inl ((List.singleton_sublist.mpr hb').cons₂ a)
      · rcases List.mem_cons.mp hb with rfl | hb'
        · exact Or.inr ((List.singleton_sublist.mpr ha').cons₂ b)
        · rcases ih ha' hb' with h | h
          · exact Or.inl (h.cons x)
          · exact Or.inr (h.cons x)

theorem not_pair_sublist_both {α : Type} {l : List α} (hl : l.Nodup) {a b : α}
    (hne : a ≠ b) (h1 : [a, b].Sublist l) (h2 : [b, a].Sublist l) : False := by
  induction l with
  | nil => exact absurd (List.sublist_nil.mp h1) (by simp)
  | cons x xs ih =>
      have hx : x ∉ xs := (List.nodup_cons.mp hl).1
      have hxs : xs.Nodup := (List.nodup_cons.mp hl).2
      rcases List.sublist_cons_iff.mp h1 with h1' | ⟨r1, hr1, hr1'⟩
      · rcases List.sublist_cons_iff.mp h2 with h2' | ⟨r2, hr2, hr2'⟩
        · exact ih hxs h1' h2'
        · -- b = x, but h1' puts b inside xs
          have hbx : b = x := (List.cons_eq_cons.mp hr2).1
          have : b ∈ xs := h1'.subset (by simp)
          exact hx (hbx ▸ this)
      · -- a = x and [b] <+ xs
        have hax : a = x := (List.cons_eq_cons.mp hr1).1
        rcases List.sublist_cons_iff.mp h2 with h2' | ⟨r2, hr2, hr2'⟩
        · have : a ∈ xs := h2'.subset (by simp)
          exact hx (hax ▸ this)
        · have hbx : b = x := (List.cons_eq_cons.mp hr2).1
          exact hne (hax.trans hbx.symm)

theorem statsLE_trans : ∀ a b c : UserStats, statsLE a b → statsLE b c → statsLE a c := by
  intro a b c
  simp only [statsLE, decide_eq_true_eq]
  omega

theorem statsLE_total : ∀ a b : UserStats, statsLE a b || statsLE b a := by
  intro a b
  simp only [statsLE, Bool.or_eq_true, decide_eq_true_eq]
  omega

/-- The users of the pre-sort statistics list are the grouping keys. -/
theorem preStats_users (prs : List PRData) :
    (((groupByAuthor prs).map fun p => mkStat p.1 p.2).map UserStats.user)
      = (groupByAuthor prs).map Prod.fst := by
  simp only [List.map_map]
  rfl

/-- The users appearing in the summary are pairwise distinct. -/
theorem summary_users_nodup (prs : List PRData) :
    ((calculate_statistics prs).map UserStats.user).Nodup := by
  have hperm : ((calculate_statistics prs).map UserStats.user).Perm
      ((((groupByAuthor prs).map fun p => mkStat p.1 p.2).map UserStats.user)) :=
    (List.mergeSort_perm _ _).map UserStats.user
  rw [hperm.nodup_iff, preStats_users]
  exact groupByAuthor_keys_nodup prs

/-- C3: the summary is sorted descending by `total_prs`, and two entries
with equal `total_prs` appear in the summary in the order their authors
first appear in the input (the stable tie-break). -/
theorem summary_sorted_and_stable (prs : List PRData) :
    (calculate_statistics prs).Pairwise (fun a b => b.total_prs ≤ a.total_prs) ∧
    (∀ a b : UserStats, [a, b].Sublist (calculate_statistics prs) →
      a.total_prs = b.total_prs →
      [a.user, b.user].Sublist (firstAppearanceOrder (prs.map PRData.author))) := by
  constructor
  · have hs := List.sorted_mergeSort statsLE_trans statsLE_total
      ((groupByAuthor prs).map fun p => mkStat p.1 p.2)
    exact hs.imp (by intro a b h; simpa [statsLE] using h)
  · intro a b hab heq
    have hmem_a : a ∈ calculate_statistics prs := hab.subset (by simp)
    have hmem_b : b ∈ calculate_statistics prs := hab.subset (by simp)
    have hmem_a' : a ∈ (groupByAuthor prs).map fun p => mkStat p.1 p.2 :=
      List.mem_mergeSort.mp hmem_a
    have hmem_b' : b ∈ (groupByAuthor prs).map fun p => mkStat p.1 p.2 :=
      List.mem_mergeSort.mp hmem_b
    have husers := summary_users_nodup prs
    have hne : a ≠ b := by
      rintro rfl
      have hpair := hab.map UserStats.user
      have := List.Pairwise.sublist hpair husers -- Pairwise (≠) on [a.user, a.user]
      simp at this
    have hneu : a.user ≠ b.user := by
      intro h
      have hnodup_pre : ((((groupByAuthor prs).map fun p => mkStat p.1 p.2).map
          UserStats.user)).Nodup := by
        rw [preStats_users]; exact groupByAuthor_keys_nodup prs
      exact hne (List.inj_on_of_nodup_map hnodup_pre hmem_a' hmem_b' h)
    rcases pair_sublist_of_mem hmem_a' hmem_b' hne with h | h
    · have hmap := h.map UserStats.user
      rw [preStats_users, groupByAuthor_keys_eq] at hmap
      exact hmap
    · have hle : statsLE b a := by
        simp [statsLE, heq]
      have h2 : [b, a].Sublist (calculate_statistics prs) :=
        List.pair_sublist_mergeSort statsLE_trans statsLE_total hle h
      exact (not_pair_sublist_both husers hneu (hab.map UserStats.user)
        (h2.map UserStats.user)).elim

/-! ### Claim theorems: pagination -/

theorem getAllPagesAux_spec {α : Type} (source : Nat → Body α) :
    ∀ (fuel k p : Nat) (acc : List α) (count : Nat),
      k ≤ p → p - k < fuel →
      (∀ q, k ≤ q → q < p → continuesPaging (source q) = true) →
      continuesPaging (source p) = false →
      getAllPagesAux source k fuel acc count =
        (acc ++ ((List.range' k (p - k + 1)).map fun q => contribution (source q)).flatten,
          count + (p - k + 1)) := by
  intro fuel
  induction fuel with
  | zero => intro k p acc count hkp hfuel; omega
  | succ fuel ih =>
      intro k p acc count hkp hfuel hfull hterm
      by_cases hk : k = p
      · subst hk
        have hkk : k - k + 1 = 1 := by omega
        rw [hkk]
        cases hsrc : source k with
        | falsy =>
            simp [getAllPagesAux, hsrc, List.range'_one, contribution]
        | otherTruthy =>
            simp [getAllPagesAux, hsrc, List.range'_one, contribution]
        | dictWithItems items =>
            rw [hsrc] at hterm
            have hlen : items.length < 100 := by
              simpa [continuesPaging, Nat.not_le] using hterm
            simp [getAllPagesAux, hsrc, if_pos hlen, List.range'_one, contribution]
        | listBody items =>
            rw [hsrc] at hterm
            have hlen : items.length < 100 := by
              simpa [continuesPaging, Nat.not_le] using hterm
            by_cases hz : items.length = 0
            · have : items = [] := List.length_eq_zero.mp hz
              subst this
              simp [getAllPagesAux, hsrc, List.range'_one, contribution]
            · simp [getAllPagesAux, hsrc, if_neg hz, if_pos hlen, List.range'_one,
                contribution]
      · have hklt : k < p := lt_of_le_of_ne hkp hk
        have hcont := hfull k le_rfl hklt
        have hrange : List.range' k (p - k + 1) = k :: List.range' (k + 1) (p - k) := by
          have h1 : p - k + 1 = (p - k - 1) + 1 + 1 := by omega
          have h2 : p - k = (p - k - 1) + 1 := by omega
          rw [h1, List.range'_succ, ← h2]
        have hih := ih (k + 1) p
        cases hsrc : source k with
        | falsy => rw [hsrc] at hcont; simp [continuesPaging] at hcont
        | otherTruthy => rw [hsrc] at hcont; simp [continuesPaging] at hcont
        | dictWithItems items =>
            rw [hsrc] at hcont
            have hlen : 100 ≤ items.length := by
              simpa [continuesPaging] using hcont
            have hstep : getAllPagesAux source k (fuel + 1) acc count
                = getAllPagesAux source (k + 1) fuel (acc ++ items) (count + 1) := by
              simp [getAllPagesAux, hsrc, Nat.not_lt.mpr hlen]
            have hpk : p - (k + 1) + 1 = p - k := by omega
            rw [hstep, hih (acc ++ items) (count + 1) hklt (by omega)
              (fun q hq1 hq2 => hfull q (by omega) hq2) hterm, hrange]
            simp only [List.map_cons, List.flatten_cons, hsrc, contribution, hpk,
              Prod.mk.injEq]
            exact ⟨by simp, by omega⟩
        | listBody items =>
            rw [hsrc] at hcont
            have hlen : 100 ≤ items.length := by
              simpa [continuesPaging] using hcont
            have hz : ¬ items.length = 0 := by omega
            have hstep : getAllPagesAux source k (fuel + 1) acc count
                = getAllPagesAux source (k + 1) fuel (acc ++ items) (count + 1) := by
              simp [getAllPagesAux, hsrc, if_neg hz, Nat.not_lt.mpr hlen]
            have hpk : p - (k + 1) + 1 = p - k := by omega
            rw [hstep, hih (acc ++ items) (count + 1) hklt (by omega)
              (fun q hq1 hq2 => hfull q (by omega) hq2) hterm, hrange]
            simp only [List.map_cons, List.flatten_cons, hsrc, contribution, hpk,
              Prod.mk.injEq]
            exact ⟨by simp, by omega⟩

/-- C4: if pages `1, ..., p-1` each return a usable body of at least 100
items and page `p` is the first page with a terminal body (a usable page
of fewer than 100 items, or a body with no usable shape), then the
pagination engine issues exactly `p` requests (pages 1 through `p`) and
returns the concatenation of all pages' item contributions, in order. -/
theorem get_all_pages_spec {α : Type} (source : Nat → Body α) (p fuel : Nat)
    (hp : 1 ≤ p) (hfuel : p ≤ fuel)
    (hfull : ∀ q, 1 ≤ q → q < p → continuesPaging (source q) = true)
    (hterm : continuesPaging (source p) = false) :
    get_all_pages fuel source =
      (((List.range' 1 p).map fun q => contribution (source q)).flatten, p) := by
  have h := getAllPagesAux_spec source fuel 1 p [] 0 hp (by omega) hfull hterm
  have hpp : p - 1 + 1 = p := by omega
  rw [hpp] at h
  simpa [get_all_pages] using h

/-- A simulated source returning pages of 100, 100, then 40 items. -/
def scenSource : Nat → Body Nat := fun q =>
  if q ≤ 2 then Body.listBody (List.range 100) else Body.listBody (List.range 40)

/-- A simulated source whose first page already carries 0 items. -/
def zeroSource : Nat → Body Nat := fun _ => Body.listBody []

/-- Witness for C4: the 100/100/40 source costs exactly 3 requests and
yields 240 items; the empty source costs exactly 1 request and yields
0 items. -/
theorem get_all_pages_spec_witness :
    get_all_pages 10 scenSource
        = (((List.range' 1 3).map fun q => contribution (scenSource q)).flatten, 3) ∧
    (((List.range' 1 3).map fun q => contribution (scenSource q)).flatten).length = 240 ∧
    get_all_pages 10 zeroSource = ([], 1) := by
  refine ⟨?_, ?_, ?_⟩
  · exact get_all_pages_spec scenSource 3 10 (by omega) (by omega)
      (by
        intro q h1 h2
        have hq : q = 1 ∨ q = 2 := by omega
        rcases hq with rfl | rfl <;> simp [scenSource, continuesPaging])
      (by simp [scenSource, continuesPaging])
  · simp [List.range', scenSource, contribution]
  · have h := get_all_pages_spec zeroSource 1 10 (by omega) (by omega)
      (by intro q h1 h2; omega) (by simp [zeroSource, continuesPaging])
    simpa [zeroSource, contribution] using h

/-! ### Claim theorems: error classification, fetcher, orchestrator -/

/-- C2: the request wrapper classifies every failed request into a
distinct error kind: 401 into `authenticationError`; 403 with a
rate-limit body into `rateLimitError`; other 403 into `forbiddenError`
with the body; any other non-200 status into `apiError` with status and
body; a transport failure into `networkError` with the cause. -/
theorem make_request_classification {β : Type} :
    (∀ (text : String) (json : β),
        make_request (.response 401 text json) = .error .authenticationError) ∧
    (∀ (text : String) (json : β), containsRateLimit text = true →
        make_request (.response 403 text json) = .error .rateLimitError) ∧
    (∀ (text : String) (json : β), containsRateLimit text = false →
        make_request (.response 403 text json) = .error (.forbiddenError text)) ∧
    (∀ (status : Nat) (text : String) (json : β),
        status ≠ 200 → status ≠ 401 → status ≠ 403 →
        make_request (.response status text json) = .error (.apiError status text)) ∧
    (∀ cause : String,
        make_request (β := β) (.requestException cause) = .error (.networkError cause)) := by
  refine ⟨?_, ?_, ?_, ?_, ?_⟩
  · intro text json; simp [make_request]
  · intro text json h; simp [make_request, h]
  · intro text json h; simp [make_request, h]
  · intro status text json h200 h401 h403; simp [make_request, h200, h401, h403]
  · intro cause; simp [make_request]

/-- Witness for C2 at concrete responses, matching the spec's simulated
scenarios (a 401; a 403 with "Rate Limit Exceeded" in any case; a 403
with an unrelated body; a 500; a network failure). -/
theorem make_request_classification_witness :
    make_request (.response 401 "unauthorized" ()) = .error .authenticationError ∧
    make_request (.response 403 "API Rate Limit Exceeded" ())
        = .error .rateLimitError ∧
    make_request (.response 403 "forbidden: SAML" ())
        = .error (.forbiddenError "forbidden: SAML") ∧
    make_request (.response 500 "boom" ()) = .error (.apiError 500 "boom") ∧
    make_request (β := Unit) (.requestException "connection refused")
        = .error (.networkError "connection refused") :=
  ⟨make_request_classification.1 "unauthorized" (),
   make_request_classification.2.1 "API Rate Limit Exceeded" () (by decide),
   make_request_classification.2.2.1 "forbidden: SAML" () (by decide),
   make_request_classification.2.2.2.1 500 "boom" () (by decide) (by decide) (by decide),
   make_request_classification.2.2.2.2 "connection refused"⟩

/-- C8: every record in a successful fetch has `total_lines` equal to
`additions + deletions` (it is recomputed from those two fields during
assembly, never copied from another source field). -/
theorem assembled_total_lines (user : String)
    (detail : String → Except GitHubAPIError PRDetails)
    (items : List SearchItem) (out : List PRData)
    (h : assembleRecords user detail items = .ok out) :
    ∀ r ∈ out, r.total_lines = r.additions + r.deletions := by
  induction items generalizing out with
  | nil =>
      rw [assembleRecords] at h
      injection h with h
      subst h
      simp
  | cons pr rest ih =>
      rw [assembleRecords] at h
      cases hd : detail (prDetailUrl pr) with
      | error e => rw [hd] at h; cases h
      | ok d =>
          rw [hd] at h
          cases hrest : assembleRecords user detail rest with
          | error e => rw [hrest] at h; cases h
          | ok restOut =>
              rw [hrest] at h
              injection h with h
              subst h
              intro r hr
              rcases List.mem_cons.mp hr with rfl | hr'
              · simp [buildRecord]
              · exact ih restOut hrest r hr'

/-- A sample search item used to instantiate hypotheses at a concrete
input. -/
def sampleSearchItem : SearchItem :=
  { number := 7, title := "t"
    repository_url := "https://api.github.com/repos/octo/repo", html_url := "h" }

/-- Witness for C8 at a concrete input. -/
theorem assembled_total_lines_witness :
    (buildRecord "alice" sampleSearchItem ⟨some "2024-01-01", some 3, some 4⟩).total_lines
      = (buildRecord "alice" sampleSearchItem ⟨some "2024-01-01", some 3, some 4⟩).additions
        + (buildRecord "alice" sampleSearchItem
            ⟨some "2024-01-01", some 3, some 4⟩).deletions :=
  assembled_total_lines "alice" (fun _ => .ok ⟨some "2024-01-01", some 3, some 4⟩)
    [sampleSearchItem] _ rfl
    (buildRecord "alice" sampleSearchItem ⟨some "2024-01-01", some 3, some 4⟩) (by simp)

/-- C10: the record assembly defaults absent detail fields (`additions`
and `deletions` to 0, `merged_at` to the empty string) and computes
`total_lines` from the defaulted values; a detail response with neither
count yields additions 0, deletions 0, total_lines 0. -/
theorem buildRecord_defaults (user : String) (pr : SearchItem) (d : PRDetails) :
    (buildRecord user pr d).additions = d.additions.getD 0 ∧
    (buildRecord user pr d).deletions = d.deletions.getD 0 ∧
    (buildRecord user pr d).merged_at = d.merged_at.getD "" ∧
    (buildRecord user pr d).total_lines = d.additions.getD 0 + d.deletions.getD 0 ∧
    (d.additions = none → d.deletions = none →
      (buildRecord user pr d).additions = 0 ∧ (buildRecord user pr d).deletions = 0 ∧
      (buildRecord user pr d).total_lines = 0) := by
  refine ⟨rfl, rfl, rfl, rfl, ?_⟩
  intro h1 h2
  simp [buildRecord, h1, h2]

/-- Witness for C10 at a concrete input: a detail response with neither
count key. -/
theorem buildRecord_defaults_witness :
    (buildRecord "alice" sampleSearchItem ⟨none, none, none⟩).additions = 0 ∧
    (buildRecord "alice" sampleSearchItem ⟨none, none, none⟩).deletions = 0 ∧
    (buildRecord "alice" sampleSearchItem ⟨none, none, none⟩).total_lines = 0 :=
  (buildRecord_defaults "alice" sampleSearchItem ⟨none, none, none⟩).2.2.2.2 rfl rfl

/-- C5: whenever the concatenated per-user record list is empty, the
orchestrator returns the empty result with `total_prs = 0`, and does so
for every aggregator (quantifying over `agg` captures that the
aggregator is not invoked on this fast path). -/
theorem analyze_empty_fast_path (agg : List PRData → List UserStats)
    (fetch : String → Except GitHubAPIError (List PRData)) (users : List String)
    (h : fetchAll fetch users = .ok []) :
    analyzeWith agg fetch users = .ok { summary := [], prs := [], total_prs := 0 } := by
  simp [analyzeWith, h]

/-- Witness for C5: one user whose fetch yields no records (and the
aggregator chosen as the real one). -/
theorem analyze_empty_fast_path_witness :
    analyzeWith calculate_statistics (fun _ => .ok []) ["alice"]
      = .ok { summary := [], prs := [], total_prs := 0 } :=
  analyze_empty_fast_path calculate_statistics (fun _ => .ok []) ["alice"] rfl

/-- C6: if every user before `u` fetches successfully and `u`'s fetch
fails with `e`, the whole analysis fails with the same `e`, for every
aggregator and regardless of the users after `u` (no partial results,
no statistics computed). -/
theorem analyze_fail_fast (agg : List PRData → List UserStats)
    (fetch : String → Except GitHubAPIError (List PRData))
    (pre post : List String) (u : String) (e : GitHubAPIError)
    (hpre : ∀ v ∈ pre, ∃ d, fetch v = .ok d)
    (hu : fetch u = .error e) :
    analyzeWith agg fetch (pre ++ u :: post) = .error e := by
  suffices h : fetchAll fetch (pre ++ u :: post) = .error e by
    simp [analyzeWith, h]
  induction pre with
  | nil => simp [fetchAll, hu]
  | cons v rest ih =>
      obtain ⟨d, hd⟩ := hpre v (by simp)
      have hrest := ih (fun w hw => hpre w (by simp [hw]))
      simp only [List.cons_append, fetchAll, hd, List.append_eq, hrest]

/-- Witness for C6: the second of three users fails with a rate-limit
error; the analysis fails with exactly that error. -/
theorem analyze_fail_fast_witness :
    analyzeWith calculate_statistics
      (fun v => if v = "bob" then .error .rateLimitError else .ok [])
      (["alice"] ++ "bob" :: ["carol"]) = .error .rateLimitError :=
  analyze_fail_fast calculate_statistics
    (fun v => if v = "bob" then .error .rateLimitError else .ok [])
    ["alice"] ["carol"] "bob" .rateLimitError
    (by intro v hv; simp at hv; subst hv; exact ⟨[], rfl⟩)
    rfl

/-- A second sample record by another author, used for the C3 witness. -/
def samplePRBob : PRData :=
  { number := 2, title := "t2", author := "bob", merged_at := "2024-01-02T00:00:00Z"
    additions := 100, deletions := 0, total_lines := 100, url := "u2" }

/-- Witness for C3: with one PR each, alice and bob tie on `total_prs`,
and the summary keeps them in first-appearance order. -/
theorem summary_sorted_and_stable_witness :
    [(mkStat "alice" [samplePR]).user, (mkStat "bob" [samplePRBob]).user].Sublist
      (firstAppearanceOrder ([samplePR, samplePRBob].map PRData.author)) := by
  have hpre : groupByAuthor [samplePR, samplePRBob]
      = [("alice", [samplePR]), ("bob", [samplePRBob])] := by
    simp [groupByAuthor, insertGroup, samplePR, samplePRBob]
  have hcalc : calculate_statistics [samplePR, samplePRBob]
      = [mkStat "alice" [samplePR], mkStat "bob" [samplePRBob]] := by
    rw [calculate_statistics, hpre]
    simp only [List.map_cons, List.map_nil]
    exact List.mergeSort_of_sorted (by simp [statsLE, mkStat])
  exact (summary_sorted_and_stable [samplePR, samplePRBob]).2
    (mkStat "alice" [samplePR]) (mkStat "bob" [samplePRBob])
    (by rw [hcalc]) rfl

end PRStats
